import Mathlib

/-!
Verification development for the tolerant content classifier and parser of the
olca-app agent front end.

The definitions below are shallow embeddings of the TypeScript source:

* `parseToolContent`, `toolResultOutcome` embed the parse-and-classify pass of
  `ToolResult` in `src/olca-app-html/src/agent/components/thread/messages/tool-calls.tsx`
  (quote rewriting, truncation recovery, `Interrupt(value=...)` extraction, the
  `approval_required` raw-text fallback, and the render-branch precedence).
* `formatExchangeAdditionSuccess` embeds the success-message formatter of the
  same file; JavaScript runtime errors (property access on `undefined`,
  calling a non-function) are modelled with `Except Unit`.
* `entityTypeOf` / `entitySummaryOf` embed the approval-data extraction of the
  `EntityApproval` component.
* `handleSubmitModel` embeds the decision-submission guard of
  `ApprovalWorkflow.handleSubmit` in `approval-workflow.tsx`.

JSON values are modelled by `JVal`; `JSON.parse` is embedded as `parseJson`, a
fuel-based strict parser over character lists.  `undefined` is modelled as
`none : Option JVal`.  Number literals keep their lexeme (claims only involve
small integer literals).  JavaScript string primitives (`trim`, `startsWith`,
`endsWith`, `includes`, `replace`, `toLowerCase`) are modelled on character
lists over ASCII, with JSON's four whitespace characters.
-/

/-- A JSON value as produced by the embedded `JSON.parse`.  Numbers keep their
source lexeme; object fields are kept in insertion order with unique keys
(later duplicates overwrite in place, like JavaScript). -/
inductive JVal where
  | null : JVal
  | bool (b : Bool) : JVal
  | num (lex : String) : JVal
  | str (s : String) : JVal
  | arr (xs : List JVal) : JVal
  | obj (fields : List (String × JVal)) : JVal

/-- The presentation categories the `ToolResult` component can select
(its render branches, in source order). -/
inductive Category where
  | foundationApproval
  | exchangeSearch
  | exchangeAddition
  | genericError
  | approval
  | plainResult
deriving DecidableEq

/-- Inbound tool-result content: either a text blob or an already-structured
value (`message.content : string | structuredValue`). -/
inductive Content where
  | text (s : String) : Content
  | structured (v : JVal) : Content

/-- The single-quote character (written by code point to keep sources plain). -/
def squote : Char := Char.ofNat 39

/-- The double-quote character. -/
def dquote : Char := Char.ofNat 34

/-- The backslash character. -/
def bslash : Char := Char.ofNat 92

/-- JSON's whitespace characters (also the core of JavaScript's `\s`). -/
def jsonWs (c : Char) : Bool :=
  c = ' ' || c = '\t' || c = '\n' || c = '\r'

/-- Drop leading JSON whitespace. -/
def skipWs (cs : List Char) : List Char :=
  cs.dropWhile jsonWs

/-- Does `pat` stand at the head of `cs`? -/
def startsL : List Char → List Char → Bool
  | [], _ => true
  | _ :: _, [] => false
  | p :: ps, c :: cs => p = c && startsL ps cs

/-- Does `needle` occur as a contiguous substring of `hay`
(JavaScript `String.prototype.includes`)? -/
def containsSub (hay needle : List Char) : Bool :=
  match hay with
  | [] => startsL needle []
  | _ :: rest => startsL needle hay || containsSub rest needle

/-- Decoded escape character for JSON string escapes other than `\u`. -/
def escChar (e : Char) : Option Char :=
  if e = dquote then some dquote
  else if e = bslash then some bslash
  else if e = '/' then some '/'
  else if e = 'b' then some (Char.ofNat 8)
  else if e = 'f' then some (Char.ofNat 12)
  else if e = 'n' then some '\n'
  else if e = 'r' then some '\r'
  else if e = 't' then some '\t'
  else none

/-- Hexadecimal digit value. -/
def hexVal (c : Char) : Option Nat :=
  if c.isDigit then some (c.toNat - 48)
  else if 'a' ≤ c && c ≤ 'f' then some (c.toNat - 87)
  else if 'A' ≤ c && c ≤ 'F' then some (c.toNat - 55)
  else none

/-- Body of a JSON string after the opening quote: the decoded characters and
the number of source characters consumed (closing quote included). -/
def strBody : List Char → Option (List Char × Nat)
  | [] => none
  | c :: rest =>
    if c = dquote then some ([], 1)
    else if c = bslash then
      match rest with
      | [] => none
      | e :: rest2 =>
        if e = 'u' then
          match rest2 with
          | a :: b :: c2 :: d :: rest3 =>
            match hexVal a, hexVal b, hexVal c2, hexVal d with
            | some ha, some hb, some hc, some hd =>
              (strBody rest3).map (fun p =>
                (Char.ofNat (((ha * 16 + hb) * 16 + hc) * 16 + hd) :: p.1, p.2 + 6))
            | _, _, _, _ => none
          | _ => none
        else
          match escChar e with
          | some ch => (strBody rest2).map (fun p => (ch :: p.1, p.2 + 2))
          | none => none
    else if c.toNat < 32 then none
    else (strBody rest).map (fun p => (c :: p.1, p.2 + 1))

/-- Length of a JSON number lexeme at the head of `cs`, if one is present
(grammar: optional minus, integer part without leading zeros, optional
fraction, optional exponent; a malformed tail is left unconsumed, as the
surrounding strict parse then fails exactly where JavaScript's does). -/
def numLexLen (cs : List Char) : Option Nat :=
  let negLen := match cs with
    | c :: _ => if c = '-' then 1 else 0
    | [] => 0
  let cs1 := cs.drop negLen
  match cs1 with
  | [] => none
  | c :: _ =>
    if ¬ c.isDigit then none
    else
      let intLen := if c = '0' then 1 else (cs1.takeWhile Char.isDigit).length
      let cs2 := cs1.drop intLen
      let fracLen := match cs2 with
        | c2 :: r2 =>
          if c2 = '.' && (r2.takeWhile Char.isDigit).length > 0 then
            1 + (r2.takeWhile Char.isDigit).length
          else 0
        | [] => 0
      let cs3 := cs2.drop fracLen
      let expLen := match cs3 with
        | c3 :: r3 =>
          if c3 = 'e' || c3 = 'E' then
            let sgnLen := match r3 with
              | s :: _ => if s = '+' || s = '-' then 1 else 0
              | [] => 0
            let d := ((r3.drop sgnLen).takeWhile Char.isDigit).length
            if d > 0 then 1 + sgnLen + d else 0
          else 0
        | [] => 0
      some (negLen + intLen + fracLen + expLen)

/-- Insert a parsed object field: a repeated key overwrites in place
(JavaScript object semantics), otherwise the field is appended. -/
def insertField (fs : List (String × JVal)) (k : String) (v : JVal) :
    List (String × JVal) :=
  if fs.any (fun p => p.1 = k) then
    fs.map (fun p => if p.1 = k then (k, v) else p)
  else fs ++ [(k, v)]

mutual

/-- Strict JSON value parser (fuel-based). Returns the value and the rest of
the input. -/
def parseV : Nat → List Char → Option (JVal × List Char)
  | 0, _ => none
  | f + 1, cs =>
    match skipWs cs with
    | [] => none
    | c :: rest =>
      if c = '\x7b' then
        (parseObjBody f rest).map (fun p => (JVal.obj p.1, p.2))
      else if c = '[' then
        (parseArrBody f rest).map (fun p => (JVal.arr p.1, p.2))
      else if c = dquote then
        (strBody rest).map (fun p => (JVal.str (String.mk p.1), rest.drop p.2))
      else if c = 't' then
        if startsL ['r', 'u', 'e'] rest then some (JVal.bool true, rest.drop 3)
        else none
      else if c = 'f' then
        if startsL ['a', 'l', 's', 'e'] rest then some (JVal.bool false, rest.drop 4)
        else none
      else if c = 'n' then
        if startsL ['u', 'l', 'l'] rest then some (JVal.null, rest.drop 3)
        else none
      else if c = '-' || c.isDigit then
        (numLexLen (c :: rest)).map (fun k =>
          (JVal.num (String.mk ((c :: rest).take k)), (c :: rest).drop k))
      else none

/-- Object body after the opening brace. -/
def parseObjBody : Nat → List Char → Option (List (String × JVal) × List Char)
  | 0, _ => none
  | f + 1, cs =>
    match skipWs cs with
    | [] => none
    | c :: rest =>
      if c = '\x7d' then some ([], rest)
      else parseMembers f (c :: rest) []

/-- Object member list: `"key" : value` separated by commas, closed by a
brace. -/
def parseMembers : Nat → List Char → List (String × JVal) →
    Option (List (String × JVal) × List Char)
  | 0, _, _ => none
  | f + 1, cs, acc =>
    match skipWs cs with
    | [] => none
    | c :: rest =>
      if c = dquote then
        match strBody rest with
        | some (kcs, klen) =>
          match skipWs (rest.drop klen) with
          | [] => none
          | c2 :: r2 =>
            if c2 = ':' then
              match parseV f r2 with
              | some (v, r3) =>
                let acc2 := insertField acc (String.mk kcs) v
                match skipWs r3 with
                | [] => none
                | c3 :: r4 =>
                  if c3 = ',' then parseMembers f r4 acc2
                  else if c3 = '\x7d' then some (acc2, r4)
                  else none
              | none => none
            else none
        | none => none
      else none

/-- Array body after the opening bracket. -/
def parseArrBody : Nat → List Char → Option (List JVal × List Char)
  | 0, _ => none
  | f + 1, cs =>
    match skipWs cs with
    | [] => none
    | c :: rest =>
      if c = ']' then some ([], rest)
      else parseElems f (c :: rest) []

/-- Array element list separated by commas, closed by a bracket. -/
def parseElems : Nat → List Char → List JVal → Option (List JVal × List Char)
  | 0, _, _ => none
  | f + 1, cs, acc =>
    match parseV f cs with
    | some (v, r1) =>
      match skipWs r1 with
      | [] => none
      | c :: r2 =>
        if c = ',' then parseElems f r2 (acc ++ [v])
        else if c = ']' then some (acc ++ [v], r2)
        else none
    | none => none

end

/-- Fuel that is always sufficient for `parseV` on `cs`. -/
def jsonFuel (cs : List Char) : Nat := 4 * cs.length + 8

/-- The embedded `JSON.parse`: parse one value, then require only whitespace
to remain. `none` models a thrown `SyntaxError`. -/
def parseJson (cs : List Char) : Option JVal :=
  match parseV (jsonFuel cs) cs with
  | some (v, rest) => if skipWs rest = [] then some v else none
  | none => none

/-! ## JavaScript value semantics -/

/-- Is a mantissa-zero number lexeme (JavaScript `0`, `-0`, `0.0e7` are all
falsy)? -/
def numIsZero (lex : String) : Bool :=
  (lex.toList.takeWhile (fun c => c ≠ 'e' && c ≠ 'E')).all
    (fun c => ¬ c.isDigit || c = '0')

/-- JavaScript truthiness; `none` models `undefined`. -/
def truthy : Option JVal → Bool
  | none => false
  | some JVal.null => false
  | some (JVal.bool b) => b
  | some (JVal.num lex) => ¬ numIsZero lex
  | some (JVal.str s) => s ≠ ""
  | some (JVal.arr _) => true
  | some (JVal.obj _) => true

/-- Optional-chaining property access `v?.k`: a field of an object, otherwise
`undefined` (the properties read by the embedded code never collide with
built-ins of arrays or strings). -/
def jget (v : Option JVal) (k : String) : Option JVal :=
  match v with
  | some (JVal.obj fs) => (fs.find? (fun p => p.1 = k)).map (fun p => p.2)
  | _ => none

/-- Strict equality against a string literal (`x === "lit"`). -/
def strictEqS (v : Option JVal) (lit : String) : Bool :=
  match v with
  | some (JVal.str s) => s = lit
  | _ => false

/-- Strict equality against `true` (`x === true`). -/
def strictEqTrue (v : Option JVal) : Bool :=
  match v with
  | some (JVal.bool b) => b
  | _ => false

/-- `isComplexValue` from tool-calls.tsx: an array, or an object that is not
null. -/
def isComplexValue : JVal → Bool
  | JVal.arr _ => true
  | JVal.obj _ => true
  | _ => false

/-- `typeof x === "object"` (true for objects, arrays and null). -/
def typeofObject : Option JVal → Bool
  | some (JVal.obj _) => true
  | some (JVal.arr _) => true
  | some JVal.null => true
  | _ => false

/-- `Object.keys(x).length` for the values it is applied to. -/
def keysLen : Option JVal → Nat
  | some (JVal.obj fs) => fs.length
  | some (JVal.arr xs) => xs.length
  | _ => 0

mutual

/-- Template-literal stringification `${x}` of a defined value (number lexemes
stand for their own decimal rendering; arrays join their elements with
commas). -/
def jsToStringV : JVal → String
  | JVal.null => "null"
  | JVal.bool b => if b then "true" else "false"
  | JVal.num lex => lex
  | JVal.str s => s
  | JVal.arr xs => jsToStringL xs
  | JVal.obj _ => "[object Object]"

/-- Stringification of one array element inside a join (null renders empty). -/
def jsToStringE : JVal → String
  | JVal.null => ""
  | JVal.bool b => if b then "true" else "false"
  | JVal.num lex => lex
  | JVal.str s => s
  | JVal.arr xs => jsToStringL xs
  | JVal.obj _ => "[object Object]"

/-- Array stringification: elements joined with commas. -/
def jsToStringL : List JVal → String
  | [] => ""
  | [x] => jsToStringE x
  | x :: y :: rest => jsToStringE x ++ "," ++ jsToStringL (y :: rest)

end

/-- Template-literal stringification `${x}`; `undefined` renders as the word
"undefined". -/
def jsToString : Option JVal → String
  | none => "undefined"
  | some v => jsToStringV v

/-- `x.length` as a plain property access: throws on `undefined`/`null`,
is a number for arrays and strings, `undefined` otherwise. -/
def jsLengthNum : Option JVal → Except Unit (Option Nat)
  | none => Except.error ()
  | some JVal.null => Except.error ()
  | some (JVal.arr xs) => Except.ok (some xs.length)
  | some (JVal.str s) => Except.ok (some s.length)
  | _ => Except.ok none

/-- `undefined > 0` is false; a number length is compared as usual. -/
def lenPos : Option Nat → Bool
  | some n => n > 0
  | none => false

/-- `x.join(sep)`: defined for arrays, a thrown `TypeError` otherwise. -/
def jsJoin (v : Option JVal) (sep : String) : Except Unit String :=
  match v with
  | some (JVal.arr xs) =>
    Except.ok (String.intercalate sep (xs.map jsToStringE))
  | _ => Except.error ()

/-- `x.forEach(...)` demands an array; a thrown `TypeError` otherwise. -/
def jsArr (v : Option JVal) : Except Unit (List JVal) :=
  match v with
  | some (JVal.arr xs) => Except.ok xs
  | _ => Except.error ()

/-- `x?.includes(needle)`: a substring test for strings, membership for
arrays, `undefined` (falsy) when `x` is `undefined`/`null`, and a thrown
`TypeError` for other values (calling `undefined`). -/
def jsIncludes (v : Option JVal) (needle : String) : Except Unit Bool :=
  match v with
  | none => Except.ok false
  | some JVal.null => Except.ok false
  | some (JVal.str s) => Except.ok (containsSub s.toList needle.toList)
  | some (JVal.arr xs) => Except.ok (xs.any (fun x =>
      match x with
      | JVal.str s => s = needle
      | _ => false))
  | _ => Except.error ()

/-! ## Detection functions (tool-calls.tsx lines 35-75) -/

/-- `isFoundationApprovalRequired` from tool-calls.tsx. -/
def isFoundationApprovalRequired (c : Option JVal) : Bool :=
  strictEqS (jget (jget c "approval_request") "entity_type") "product_system_foundation"
  || strictEqS (jget c "entity_type") "product_system_foundation"

/-- `isApprovalRequired` from tool-calls.tsx: nested status shape, direct
flag shape, or the foundation shape. -/
def isApprovalRequired (c : Option JVal) : Bool :=
  (strictEqS (jget c "status") "approval_required" && truthy (jget c "approval_request"))
  || (strictEqTrue (jget c "approval_required") && truthy (jget c "entity_type"))
  || isFoundationApprovalRequired c

/-- `isExchangeSearchResults` from tool-calls.tsx. -/
def isExchangeSearchResults (c : Option JVal) : Bool :=
  strictEqS (jget c "status") "success"
  && truthy (jget c "search_results")
  && typeofObject (jget c "search_results")
  && keysLen (jget c "search_results") > 0

/-- `isExchangeAdditionResults` from tool-calls.tsx (`exchanges_added` must be
defined, `search_metadata` truthy). -/
def isExchangeAdditionResults (c : Option JVal) : Bool :=
  strictEqS (jget c "status") "success"
  && (jget c "exchanges_added").isSome
  && truthy (jget c "search_metadata")

/-- `isErrorContent` from tool-calls.tsx.  The `||` chain short-circuits, so
the `.includes` calls (which throw on truthy non-string values) are reached
only when the earlier disjuncts are false. -/
def isErrorContent (c : Option JVal) : Except Unit Bool :=
  if strictEqS (jget c "status") "error" then Except.ok true
  else if strictEqS (jget c "status") "validation_complete" then Except.ok true
  else if truthy (jget c "validation_errors") then Except.ok true
  else do
    let b1 ← jsIncludes (jget c "details") "Rollback errors:"
    if b1 then return true
    let b2 ← jsIncludes (jget c "message") "Exchange validation failed"
    if b2 then return true
    jsIncludes (jget c "message") "Failed to add selected exchanges"

/-! ## The exchange-addition success formatter (tool-calls.tsx lines 78-123) -/

/-- `formatExchangeAdditionSuccess` from tool-calls.tsx.  Property accesses on
`undefined` (for example `search_metadata.materials_added.length` when
`materials_added` is absent) are modelled as `Except.error`. -/
def formatExchangeAdditionSuccess (content : Option JVal) : Except Unit String := do
  let exchangesAdded := (jget content "exchanges_added").getD (JVal.num "0")
  let searchMetadata := jget content "search_metadata"
  let nextAction := jget content "next_action"
  let stateUpdate := jget content "state_update"
  let mut humanMessage := "✅ **Exchanges Added Successfully**\n\n"
  humanMessage := humanMessage ++ "**Summary:**\n"
  humanMessage := humanMessage ++ "• Added " ++ jsToString (some exchangesAdded)
    ++ " exchanges to the process\n"
  if truthy searchMetadata then
    humanMessage := humanMessage ++ "• Total exchanges in process: "
      ++ jsToString (jget searchMetadata "total_exchanges_added") ++ "\n"
    let ma := jget searchMetadata "materials_added"
    let maLen ← jsLengthNum ma
    if lenPos maLen then
      let joined ← jsJoin ma ", "
      humanMessage := humanMessage ++ "• Materials added: " ++ joined ++ "\n"
  humanMessage := humanMessage ++ "\n"
  if truthy stateUpdate then
    humanMessage := humanMessage ++ "**Current Process State:**\n"
    humanMessage := humanMessage ++ "• Stage: "
      ++ jsToString (jget stateUpdate "process_building_stage") ++ "\n"
    let ex := jget stateUpdate "current_process_exchanges"
    let exLen ← jsLengthNum ex
    humanMessage := humanMessage ++ "• Total exchanges: "
      ++ (match exLen with
          | some n => toString n
          | none => "undefined") ++ "\n\n"
    if lenPos exLen then
      humanMessage := humanMessage ++ "**Current Exchanges:**\n"
      let xs ← jsArr ex
      for exch in xs do
        let badges :=
          (if truthy (jget (some exch) "is_input") then ["Input"] else [])
          ++ (if truthy (jget (some exch) "is_quantitative_reference")
              then ["Reference"] else [])
        let badgeText :=
          if badges.length > 0 then " [" ++ String.intercalate ", " badges ++ "]"
          else ""
        humanMessage := humanMessage ++ "• " ++ jsToString (jget (some exch) "flow_name")
          ++ " (" ++ jsToString (jget (some exch) "amount") ++ ")" ++ badgeText ++ "\n"
      humanMessage := humanMessage ++ "\n"
  if truthy nextAction then
    humanMessage := humanMessage ++ "**Next Step:** " ++ jsToString nextAction
  return humanMessage

/-! ## The tolerant parse pipeline (tool-calls.tsx lines 208-291) -/

/-- Drop trailing JSON whitespace. -/
def trimEnd (cs : List Char) : List Char :=
  ((cs.reverse.dropWhile jsonWs)).reverse

/-- JavaScript `String.prototype.trim` (over the ASCII whitespace the inputs
use). -/
def jtrim (cs : List Char) : List Char :=
  trimEnd (skipWs cs)

/-- `endsWith("...")`. -/
def endsWithDots (cs : List Char) : Bool :=
  match cs.reverse with
  | '.' :: '.' :: '.' :: _ => true
  | _ => false

/-- `slice(0, -3)`: everything but the last three characters. -/
def dropR3 (cs : List Char) : List Char :=
  (cs.reverse.drop 3).reverse

/-- Does the (trimmed) text start with a brace or a bracket? -/
def headIsBrace (cs : List Char) : Bool :=
  match cs with
  | c :: _ => c = '\x7b' || c = '['
  | [] => false

/-- `lastIndexOf` helper: `i` is the index of the head of `cs` in the original
string, `cur` the best index found so far (−1 when none). -/
def lastIdxAux : List Char → Char → Int → Int → Int
  | [], _, _, cur => cur
  | x :: rest, c, i, cur => lastIdxAux rest c (i + 1) (if x = c then i else cur)

/-- JavaScript `lastIndexOf` of a character (−1 when absent). -/
def lastIdxC (cs : List Char) (c : Char) : Int :=
  lastIdxAux cs c 0 (-1)

/-- The balanced-depth scan of the truncation-recovery branch: walk the text
tracking brace and bracket depth, remembering the right-most index past
`lastC` where both return to zero. -/
def bestScan : List Char → Int → Int → Int → Int → Int → Int
  | [], _, _, _, _, best => best
  | c :: rest, i, br, bk, lastC, best =>
    let br2 := if c = '\x7b' then br + 1 else if c = '\x7d' then br - 1 else br
    let bk2 := if c = '[' then bk + 1 else if c = ']' then bk - 1 else bk
    let best2 := if br2 = 0 && bk2 = 0 && i > lastC then i else best
    bestScan rest (i + 1) br2 bk2 lastC best2

/-- `bestPosition` of the truncation-recovery branch: starts from the last
complete closer (`lastIndexOf` of a brace or bracket) and is improved by the
balanced-depth scan. -/
def bestPosition (cs : List Char) : Int :=
  let lastC := max (lastIdxC cs '\x7d') (lastIdxC cs ']')
  bestScan cs 0 0 0 lastC lastC

/-- The single-quote normalization: when the text has single quotes and no
double quotes, every single quote becomes a double quote. -/
def rewriteQuotes (cs : List Char) : List Char :=
  if cs.contains squote && ¬ cs.contains dquote then
    cs.map (fun c => if c = squote then dquote else c)
  else cs

/-- The tolerant parse of `ToolResult` (tool-calls.tsx lines 208-291): the
parsed content (`none` models `undefined`) and the `isJsonContent` flag.
Structured (non-string) content is not handled by the source's `try` block,
so its value stays `undefined`. -/
def parseToolContent : Content → Option JVal × Bool
  | Content.structured _ => (none, false)
  | Content.text s =>
    let j := rewriteQuotes s.toList
    let t := jtrim j
    if headIsBrace t then
      if endsWithDots t then
        let w := dropR3 t
        let best := bestPosition w
        if best > 0 then
          match parseJson (w.take (best.toNat + 1)) with
          | some v => (some v, isComplexValue v)
          | none =>
            match parseJson j with
            | some v => (some v, isComplexValue v)
            | none => (some (JVal.str s), false)
        else
          match parseJson j with
          | some v => (some v, isComplexValue v)
          | none => (some (JVal.str s), false)
      else
        match parseJson j with
        | some v => (some v, isComplexValue v)
        | none => (some (JVal.str s), false)
    else (some (JVal.str s), false)

/-! ## Interrupt extraction (tool-calls.tsx lines 324-412 and 415-502) -/

/-- The literal `Interrupt(value=`. -/
def interruptMarker : List Char := "Interrupt(value=".toList

/-- Capture of `.*?` before the alternation: the characters before the first
occurrence of the two-character sequence brace-then-paren, or everything when
it does not occur (the `$` alternative of the lazy regex). -/
def takeUntilBraceParen : List Char → List Char
  | [] => []
  | '\x7d' :: ')' :: _ => []
  | c :: rest => c :: takeUntilBraceParen rest

/-- Is the head an opening brace (the regex requires one right after the
marker)? -/
def headIsBraceOnly (cs : List Char) : Bool :=
  match cs with
  | c :: _ => c = '\x7b'
  | [] => false

/-- Group 1 of the interrupt regex at the first position where the marker is
followed by an opening brace: the brace plus the lazy capture. -/
def interruptFind : List Char → Option (List Char)
  | [] => none
  | c :: rest =>
    if startsL interruptMarker (c :: rest)
        && headIsBraceOnly ((c :: rest).drop interruptMarker.length) then
      some ('\x7b' :: takeUntilBraceParen ((c :: rest).drop (interruptMarker.length + 1)))
    else interruptFind rest

/-- Index of the first position where the running brace count returns to
zero (−1 when it never does), as in the truncated-interrupt repair loop. -/
def braceZeroIdx : List Char → Int → Int → Int
  | [], _, _ => -1
  | c :: rest, i, count =>
    if c = '\x7b' then braceZeroIdx rest (i + 1) (count + 1)
    else if c = '\x7d' then
      (if count - 1 = 0 then i else braceZeroIdx rest (i + 1) (count - 1))
    else braceZeroIdx rest (i + 1) count

/-- The truncated-interrupt repair: when the capture does not end with a
closing brace, cut it at the first balanced position (when one exists past
index zero). -/
def braceAdjust (cap : List Char) : List Char :=
  match cap.reverse with
  | '\x7d' :: _ => cap
  | _ =>
    let idx := braceZeroIdx cap 0 0
    if idx > 0 then cap.take (idx.toNat + 1) else cap

/-- Replace every single quote by a double quote (the unconditional
`replace(/'/g, ...)` of the interrupt clean-up). -/
def replaceQuotes (cs : List Char) : List Char :=
  cs.map (fun c => if c = squote then dquote else c)

/-- Is the character a JavaScript word character (for `\b`)? -/
def isWordChar (c : Char) : Bool :=
  c.isAlphanum || c = '_'

/-- No word character stands at this boundary. -/
def boundaryOk : Option Char → Bool
  | none => true
  | some c => ¬ isWordChar c

/-- `replace(/\bTrue\b/g, "true")`: one global word-bounded replacement, the
boundaries judged on the original text as JavaScript regex replacement does
(`prev` is the character before the current position). -/
def repTrue : Option Char → List Char → List Char
  | prev, 'T' :: 'r' :: 'u' :: 'e' :: rest =>
    if boundaryOk prev && boundaryOk rest.head? then
      't' :: 'r' :: 'u' :: 'e' :: repTrue (some 'e') rest
    else 'T' :: repTrue (some 'T') ('r' :: 'u' :: 'e' :: rest)
  | _, [] => []
  | _, c :: rest => c :: repTrue (some c) rest

/-- `replace(/\bFalse\b/g, "false")`. -/
def repFalse : Option Char → List Char → List Char
  | prev, 'F' :: 'a' :: 'l' :: 's' :: 'e' :: rest =>
    if boundaryOk prev && boundaryOk rest.head? then
      'f' :: 'a' :: 'l' :: 's' :: 'e' :: repFalse (some 'e') rest
    else 'F' :: repFalse (some 'F') ('a' :: 'l' :: 's' :: 'e' :: rest)
  | _, [] => []
  | _, c :: rest => c :: repFalse (some c) rest

/-- `replace(/\bNone\b/g, "null")`. -/
def repNone : Option Char → List Char → List Char
  | prev, 'N' :: 'o' :: 'n' :: 'e' :: rest =>
    if boundaryOk prev && boundaryOk rest.head? then
      'n' :: 'u' :: 'l' :: 'l' :: repNone (some 'e') rest
    else 'N' :: repNone (some 'N') ('o' :: 'n' :: 'e' :: rest)
  | _, [] => []
  | _, c :: rest => c :: repNone (some c) rest

/-- The Python-literal clean-up applied to an extracted interrupt capture:
quotes, then `True`, `False`, `None`. -/
def interruptCleanup (cap : List Char) : List Char :=
  repNone none (repFalse none (repTrue none (replaceQuotes (braceAdjust cap))))

/-! ## Regex field scraping (the interrupt catch branch and the
`approval_required` fallback) -/

/-- The tail of the field pattern after the key: an optional quote, optional
whitespace, a colon, optional whitespace, a quote, a non-empty run free of
quotes (the capture), and a closing quote.  The optional leading quote is
greedy with one backtracking retry, as in the regex `['"]?`. -/
def tailCore (cs : List Char) : Option (List Char) :=
  match cs.dropWhile jsonWs with
  | ':' :: rest =>
    (match rest.dropWhile jsonWs with
     | q :: rest2 =>
       if q = squote || q = dquote then
         let cap := rest2.takeWhile (fun c => c ≠ squote && c ≠ dquote)
         if cap = [] then none
         else
           (match rest2.drop cap.length with
            | q2 :: _ => if q2 = squote || q2 = dquote then some cap else none
            | [] => none)
       else none
     | [] => none)
  | _ => none

/-- `['"]?` then the rest of the field pattern. -/
def tailWithOptQuote (cs : List Char) : Option (List Char) :=
  match cs with
  | c :: rest =>
    if c = squote || c = dquote then
      match tailCore rest with
      | some cap => some cap
      | none => tailCore cs
    else tailCore cs
  | [] => tailCore cs

/-- Leftmost match of the field pattern `key['"]?\s*:\s*['"]([^'"]+)['"]`:
the captured characters. -/
def scrapeGo (key : List Char) : List Char → Option (List Char)
  | [] => none
  | c :: rest =>
    if startsL key (c :: rest) then
      match tailWithOptQuote ((c :: rest).drop key.length) with
      | some cap => some cap
      | none => scrapeGo key rest
    else scrapeGo key rest

/-- Scrape one quoted field value by key. -/
def scrapeF (key : String) (s : List Char) : Option String :=
  (scrapeGo key.toList s).map String.mk

/-- The tail of the `entity_details` pattern after the key: optional quote,
whitespace, colon, whitespace, an opening brace, a non-empty run free of
closing braces (the capture), and a closing brace. -/
def detailsTailCore (cs : List Char) : Option (List Char) :=
  match cs.dropWhile jsonWs with
  | ':' :: rest =>
    (match rest.dropWhile jsonWs with
     | q :: rest2 =>
       if q = '\x7b' then
         let cap := rest2.takeWhile (fun c => c ≠ '\x7d')
         if cap = [] then none
         else
           (match rest2.drop cap.length with
            | q2 :: _ => if q2 = '\x7d' then some cap else none
            | [] => none)
       else none
     | [] => none)
  | _ => none

/-- `['"]?` then the rest of the `entity_details` pattern. -/
def detailsTailOpt (cs : List Char) : Option (List Char) :=
  match cs with
  | c :: rest =>
    if c = squote || c = dquote then
      match detailsTailCore rest with
      | some cap => some cap
      | none => detailsTailCore cs
    else detailsTailCore cs
  | [] => detailsTailCore cs

/-- Leftmost match of `entity_details['"]?\s*:\s*\x7b([^\x7d]+)\x7d`. -/
def scrapeDetailsGo : List Char → Option (List Char)
  | [] => none
  | c :: rest =>
    if startsL "entity_details".toList (c :: rest) then
      match detailsTailOpt ((c :: rest).drop ("entity_details".toList).length) with
      | some cap => some cap
      | none => scrapeDetailsGo rest
    else scrapeDetailsGo rest

/-- The `entity_details` record assembled in the interrupt catch branch:
`name`, `flow_type` and `flow_property` scraped from the captured block, each
defaulting to `Unknown`; an empty object when no block matched. -/
def interruptDetailsRecord (s : List Char) : JVal :=
  match scrapeDetailsGo s with
  | some inner =>
    JVal.obj
      [("name", JVal.str ((scrapeF "name" inner).getD "Unknown")),
       ("flow_type", JVal.str ((scrapeF "flow_type" inner).getD "Unknown")),
       ("flow_property", JVal.str ((scrapeF "flow_property" inner).getD "Unknown"))]
  | none => JVal.obj []

/-- The approval record assembled by the interrupt catch branch when the
three required fields were scraped. -/
def interruptScrapeRecord (s : List Char) (et es ac : String) : JVal :=
  JVal.obj
    [("entity_type", JVal.str et),
     ("entity_summary", JVal.str es),
     ("action", JVal.str ac),
     ("impact", JVal.str ((scrapeF "impact" s).getD "Will create a new entity")),
     ("entity_details", interruptDetailsRecord s)]

/-- The regex scrape of the interrupt catch branch: a record only when
`entity_type`, `entity_summary` and `action` all matched. -/
def interruptScrape (s : List Char) : Option JVal :=
  match scrapeF "entity_type" s, scrapeF "entity_summary" s, scrapeF "action" s with
  | some et, some es, some ac => some (interruptScrapeRecord s et es ac)
  | _, _, _ => none

/-- The whole interrupt-extraction block applied to one string (the same code
runs on the `details` field and on the raw content): `some v` when it
establishes an approval record `v`, `none` when it leaves the state
unchanged. -/
def tryInterrupt (s : List Char) : Option JVal :=
  match interruptFind s with
  | none => none
  | some cap =>
    match parseJson (interruptCleanup cap) with
    | some v =>
      if truthy (jget (some v) "entity_type") && truthy (jget (some v) "entity_summary")
          && truthy (jget (some v) "action") then
        some v
      else none
    | none => interruptScrape s

/-! ## The `approval_required` raw-text fallback (tool-calls.tsx lines 504-543) -/

/-- Does the lowercased raw content contain an approval marker? -/
def hasApprovalMarker (s : List Char) : Bool :=
  let low := s.map Char.toLower
  containsSub low "approval_required".toList || containsSub low "approval required".toList

/-- The `entity_details` value of the raw-content fallback: the captured block
re-wrapped in braces, single quotes rewritten, and strictly parsed; an empty
object when there is no block or the parse fails. -/
def fallbackDetails (s : List Char) : JVal :=
  match scrapeDetailsGo s with
  | some inner =>
    (match parseJson (replaceQuotes ('\x7b' :: inner ++ ['\x7d'])) with
     | some v => v
     | none => JVal.obj [])
  | none => JVal.obj []

/-- The synthetic approval record assembled from raw content by the
`approval_required` fallback, with its documented defaults. -/
def syntheticApproval (s : List Char) : JVal :=
  JVal.obj
    [("status", JVal.str "approval_required"),
     ("message", JVal.str ((scrapeF "message" s).getD "Approval required")),
     ("approval_request", JVal.obj
       [("entity_type", JVal.str ((scrapeF "entity_type" s).getD "unknown")),
        ("entity_summary",
          JVal.str ((scrapeF "entity_summary" s).getD "Entity requires approval")),
        ("action", JVal.str ((scrapeF "action" s).getD "create")),
        ("impact", JVal.str ((scrapeF "impact" s).getD "Will create a new entity")),
        ("entity_details", fallbackDetails s)])]

/-! ## The classify-and-render pass of `ToolResult` -/

/-- The state threaded through the fallback blocks: the parsed content, the
`isJsonContent` flag and the `hasApproval` flag. -/
structure ClassifyState where
  value : Option JVal
  isJson : Bool
  hasApproval : Bool

/-- The classify-and-render pass after parsing.  `rawTI` is the result of the
interrupt block on the raw text, `rawMk` the `approval_required` marker test
on the raw text, and `syn` the synthetic record the marker fallback would
build; for structured (non-string) content the raw blocks do not run, which
is the same as `rawTI = none`, `rawMk = false`.  The returned pair is the
selected render branch (first match wins, in source order) and the content
handed to it; `Except.error` models an uncaught JavaScript exception. -/
def toolOutcomeSteps (v0 : Option JVal) (isJson0 : Bool) (rawTI : Option JVal)
    (rawMk : Bool) (syn : JVal) : Except Unit (Category × Option JVal) := do
  let hasApproval0 := if isJson0 then isApprovalRequired v0 else false
  let hasFoundation := if isJson0 then isFoundationApprovalRequired v0 else false
  let hasSearch := if isJson0 then isExchangeSearchResults v0 else false
  let hasAddition := if isJson0 then isExchangeAdditionResults v0 else false
  let hasError ← if isJson0 then isErrorContent v0 else pure false
  let st1 : ClassifyState ←
    if ¬ hasApproval0 && isJson0 && truthy (jget v0 "details") then
      match jget v0 "details" with
      | some (JVal.str ds) =>
        (match tryInterrupt ds.toList with
         | some nv => pure ⟨some nv, true, true⟩
         | none => pure ⟨v0, isJson0, hasApproval0⟩)
      | _ => throw ()
    else pure ⟨v0, isJson0, hasApproval0⟩
  let st2 : ClassifyState :=
    if st1.hasApproval then st1
    else
      let stI : ClassifyState :=
        match rawTI with
        | some nv => ⟨some nv, true, true⟩
        | none => st1
      if rawMk then
        if stI.isJson then ⟨stI.value, stI.isJson, true⟩
        else ⟨some syn, true, true⟩
      else stI
  if hasFoundation then pure (Category.foundationApproval, st2.value)
  else if hasSearch then pure (Category.exchangeSearch, st2.value)
  else if hasAddition then do
    let _ ← formatExchangeAdditionSuccess st2.value
    pure (Category.exchangeAddition, st2.value)
  else if hasError then pure (Category.genericError, st2.value)
  else if st2.hasApproval then pure (Category.approval, st2.value)
  else pure (Category.plainResult, st2.value)

/-- The full parse-and-classify pass of `ToolResult` on one inbound message.
For string content the raw-text fallbacks run on the original text; for
structured content they are skipped. -/
def toolResultOutcome : Content → Except Unit (Category × Option JVal)
  | Content.structured v =>
    let p := parseToolContent (Content.structured v)
    toolOutcomeSteps p.1 p.2 none false (JVal.obj [])
  | Content.text s =>
    let p := parseToolContent (Content.text s)
    toolOutcomeSteps p.1 p.2 (tryInterrupt s.toList) (hasApprovalMarker s.toList)
      (syntheticApproval s.toList)

/-! ## Approval-data extraction of `EntityApproval` -/

/-- JavaScript `a || b`: the first operand when truthy, otherwise the
second. -/
def jsOrV (a b : Option JVal) : Option JVal :=
  if truthy a then a else b

/-- `content?.approval_request || content`. -/
def approvalRequestOf (c : Option JVal) : Option JVal :=
  jsOrV (jget c "approval_request") c

/-- `approvalRequest?.entity_type || content?.entity_type || "entity"`. -/
def entityTypeOf (c : Option JVal) : Option JVal :=
  jsOrV (jget (approvalRequestOf c) "entity_type")
    (jsOrV (jget c "entity_type") (some (JVal.str "entity")))

/-- `approvalRequest?.entity_summary || content?.entity_summary ||
"Entity requires approval"`. -/
def entitySummaryOf (c : Option JVal) : Option JVal :=
  jsOrV (jget (approvalRequestOf c) "entity_summary")
    (jsOrV (jget c "entity_summary") (some (JVal.str "Entity requires approval")))

/-- `approvalRequest?.action || content?.action || "create"`. -/
def actionOf (c : Option JVal) : Option JVal :=
  jsOrV (jget (approvalRequestOf c) "action")
    (jsOrV (jget c "action") (some (JVal.str "create")))

/-! ## Decision submission (`ApprovalWorkflow.handleSubmit`) -/

/-- The two decision buttons. -/
inductive Decision where
  | approve
  | reject
deriving DecidableEq

/-- Component state relevant to submission. -/
structure SubmitState where
  decision : Option Decision
  reason : String
  suggestions : List String

/-- What one press of the submit button does: blocked by a guard, or a
payload handed to the transport. -/
inductive SubmitOutcome where
  | blockedNoDecision
  | blockedNoReason
  | submitted (payload : JVal)

/-- JavaScript `String.prototype.trim` on a `String` (same ASCII whitespace
model as `jtrim`). -/
def jsTrim (s : String) : String :=
  String.mk (jtrim s.toList)

/-- The decision word serialized into the response payload. -/
def decisionWord : Decision → String
  | Decision.approve => "approve"
  | Decision.reject => "reject"

/-- The legacy wrapped response object built by `handleSubmit` (the
`tool_call_id` field is omitted when undefined, as `JSON.stringify` would
drop it). -/
def submitPayload (st : SubmitState) (toolName : Option String)
    (toolCallId : Option String) (d : Decision) : JVal :=
  JVal.obj
    [("tool_response", JVal.obj
      ([("tool_name", JVal.str (toolName.getD "request_user_approval"))]
        ++ (match toolCallId with
            | some id => [("tool_call_id", JVal.str id)]
            | none => [])
        ++ [("approval_decision", JVal.obj
          ([("decision", JVal.str (decisionWord d)),
            ("reason", JVal.str (jsTrim st.reason))]
            ++ (if d = Decision.reject && st.suggestions.length > 0 then
                  [("suggestions", JVal.arr (st.suggestions.map JVal.str))]
                else [])))]))]

/-- `ApprovalWorkflow.handleSubmit` (approval-workflow.tsx lines 42-102): the
no-decision guard, the rejection-reason guard, and only then the transport
call with the response payload. -/
def handleSubmitModel (st : SubmitState) (toolName : Option String)
    (toolCallId : Option String) : SubmitOutcome :=
  match st.decision with
  | none => SubmitOutcome.blockedNoDecision
  | some d =>
    if d = Decision.reject && jsTrim st.reason = "" then
      SubmitOutcome.blockedNoReason
    else SubmitOutcome.submitted (submitPayload st toolName toolCallId d)

/-- The submit button's disabled predicate (approval-workflow.tsx lines
331-340), ignoring the transient `isSubmitting` state. -/
def submitDisabled (st : SubmitState) : Bool :=
  st.decision.isNone
  || (st.decision = some Decision.reject && jsTrim st.reason = "")

/-- `isComplexValue` lifted to a possibly-undefined value. -/
def optComplex : Option JVal → Bool
  | some v => isComplexValue v
  | none => false

set_option maxRecDepth 65536

/-! ## Claim inputs -/

def c1TextInput : String := "\x7b\"status\": \"success\", \"approval_required\": true, \"entity_type\": \"process\", \"search_results\": \x7b\"steel\": 1\x7d\x7d"

def c1Val : JVal := JVal.obj
  [("status", JVal.str "success"), ("approval_required", JVal.bool true),
   ("entity_type", JVal.str "process"),
   ("search_results", JVal.obj [("steel", JVal.num "1")])]

def c2Struct : JVal := JVal.obj
  [("status", JVal.str "approval_required"),
   ("approval_request", JVal.obj [("entity_type", JVal.str "process")])]

def c3TextInput : String := "\x7b\"status\": \"success\", \"exchanges_added\": 1, \"search_metadata\": \x7b\x7d\x7d"

def c3Val : JVal := JVal.obj
  [("status", JVal.str "success"), ("exchanges_added", JVal.num "1"),
   ("search_metadata", JVal.obj [])]

def c4TextInput : String := "\x7b\"a\": \x7b\"b\": 1\x7d, \"c\": 2\x7d..."

def c4Val : JVal := JVal.obj
  [("a", JVal.obj [("b", JVal.num "1")]), ("c", JVal.num "2")]

def c5TextInput : String := "\x7b\"status\": \"error\", \"details\": \"Interrupt(value=\x7b'entity_type': 'process', 'entity_summary': 'X', 'action': 'create'\x7d )\"\x7d"

def c5DetailsStr : String := "Interrupt(value=\x7b'entity_type': 'process', 'entity_summary': 'X', 'action': 'create'\x7d )"

def c5Interrupt : JVal := JVal.obj
  [("entity_type", JVal.str "process"), ("entity_summary", JVal.str "X"),
   ("action", JVal.str "create")]

def c5RawInput : String := "Error occurred: Interrupt(value=\x7b'entity_type': 'flow', 'entity_summary': 'Flow: F', 'action': 'create'\x7d )"

def c5RawVal : JVal := JVal.obj
  [("entity_type", JVal.str "flow"), ("entity_summary", JVal.str "Flow: F"),
   ("action", JVal.str "create")]

def c7Input : Option JVal := some (JVal.obj
  [("status", JVal.str "approval_required"),
   ("approval_request", JVal.obj [("entity_type", JVal.str "process")])])

def c9Raw1 : String := "\x7b\"x\": 1\x7d"

def c9Raw2 : String := "\x7b\"x\": 1\x7d\x7bapproval_required..."

def c9Val : JVal := JVal.obj [("x", JVal.num "1")]

def c10Witness : String := "the tool reported approval_required for this step"

/-! ## Sanity checks (concrete evaluations of the embedded code) -/

example : parseJson "\x7b\"a\": 1\x7d".toList =
    some (JVal.obj [("a", JVal.num "1")]) := rfl

example : parseJson "\x7b\"a\": \x7b\"b\": 1\x7d, \"c\": 2\x7d".toList =
    some (JVal.obj [("a", JVal.obj [("b", JVal.num "1")]), ("c", JVal.num "2")]) := rfl

example : parseJson "[true, false, null, \"x\", -1.5e2]".toList =
    some (JVal.arr [JVal.bool true, JVal.bool false, JVal.null,
      JVal.str "x", JVal.num "-1.5e2"]) := rfl

example : parseJson "\x7b\"a\": 1".toList = none := rfl

example : parseJson "\x7b'a': 1\x7d".toList = none := rfl

example : parseToolContent (Content.text "\x7b\"x\": 1\x7d") =
    (some (JVal.obj [("x", JVal.num "1")]), true) := rfl

example : parseToolContent (Content.text "plain prose") =
    (some (JVal.str "plain prose"), false) := rfl

example : parseToolContent (Content.text "\x7b'a': 'b'\x7d") =
    (some (JVal.obj [("a", JVal.str "b")]), true) := rfl

example : parseToolContent (Content.text "\x7b\"a\": \x7b\"b\": 1\x7d, \"c\": 2\x7d...") =
    (some (JVal.obj [("a", JVal.obj [("b", JVal.num "1")]), ("c", JVal.num "2")]), true) := rfl

example : parseToolContent (Content.text "\x7b...") =
    (some (JVal.str "\x7b..."), false) := rfl

example :
    toolResultOutcome (Content.text "\x7b\"status\": \"approval_required\", \"approval_request\": \x7b\"entity_type\": \"process\"\x7d\x7d") =
    Except.ok (Category.approval,
      some (JVal.obj [("status", JVal.str "approval_required"),
        ("approval_request", JVal.obj [("entity_type", JVal.str "process")])])) := rfl

example :
    toolResultOutcome (Content.text "just some text") =
    Except.ok (Category.plainResult, some (JVal.str "just some text")) := rfl

example :
    toolResultOutcome (Content.text "\x7b\"status\": \"error\", \"message\": \"boom\"\x7d") =
    Except.ok (Category.genericError,
      some (JVal.obj [("status", JVal.str "error"), ("message", JVal.str "boom")])) := rfl

/-! ## Supporting lemmas -/

theorem skipWs_sl (cs : List Char) : List.Sublist (skipWs cs) cs :=
  List.dropWhile_sublist jsonWs

theorem skipWs_cons_sl {cs rest : List Char} {c : Char}
    (h : skipWs cs = c :: rest) : List.Sublist rest cs := by
  have h1 : List.Sublist (c :: rest) cs := h ▸ skipWs_sl cs
  exact (List.sublist_cons_self c rest).trans h1

theorem parse_rest_sl : ∀ f : Nat,
    (∀ cs v r, parseV f cs = some (v, r) → List.Sublist r cs) ∧
    (∀ cs fs r, parseObjBody f cs = some (fs, r) → List.Sublist r cs) ∧
    (∀ cs acc fs r, parseMembers f cs acc = some (fs, r) → List.Sublist r cs) ∧
    (∀ cs xs r, parseArrBody f cs = some (xs, r) → List.Sublist r cs) ∧
    (∀ cs acc xs r, parseElems f cs acc = some (xs, r) → List.Sublist r cs) := by
  intro f
  induction f with
  | zero =>
    refine ⟨?_, ?_, ?_, ?_, ?_⟩ <;> intros <;> simp_all [parseV, parseObjBody,
      parseMembers, parseArrBody, parseElems]
  | succ f ih =>
    obtain ⟨ihV, ihO, ihM, ihA, ihE⟩ := ih
    refine ⟨?_, ?_, ?_, ?_, ?_⟩
    · intro cs v r h
      rw [parseV] at h
      split at h
      · exact absurd h (by simp)
      next c rest h1 =>
        have hrest : List.Sublist rest cs := skipWs_cons_sl h1
        have hall : List.Sublist (c :: rest) cs := h1 ▸ skipWs_sl cs
        split_ifs at h with hc1 hc2 hc3 hc4 hc5 hc6 hc7
        · cases h2 : parseObjBody f rest with
          | none => rw [h2] at h; exact absurd h (by simp)
          | some p =>
            rw [h2] at h
            simp only [Option.map_some'] at h
            cases h; exact (ihO rest p.1 p.2 (by rw [h2])).trans hrest
        · cases h2 : parseArrBody f rest with
          | none => rw [h2] at h; exact absurd h (by simp)
          | some p =>
            rw [h2] at h
            simp only [Option.map_some'] at h
            cases h; exact (ihA rest p.1 p.2 (by rw [h2])).trans hrest
        · cases h2 : strBody rest with
          | none => rw [h2] at h; exact absurd h (by simp)
          | some p =>
            rw [h2] at h
            simp only [Option.map_some'] at h
            cases h; exact (List.drop_sublist p.2 rest).trans hrest
        · cases h; exact (List.drop_sublist 3 rest).trans hrest
        · cases h; exact (List.drop_sublist 4 rest).trans hrest
        · cases h; exact (List.drop_sublist 3 rest).trans hrest
        · cases h2 : numLexLen (c :: rest) with
          | none => rw [h2] at h; exact absurd h (by simp)
          | some k =>
            rw [h2] at h
            simp only [Option.map_some'] at h
            cases h
            exact (List.drop_sublist k (c :: rest)).trans hall
    · intro cs fs r h
      rw [parseObjBody] at h
      split at h
      · exact absurd h (by simp)
      next c rest h1 =>
        split_ifs at h with hc
        · cases h; exact skipWs_cons_sl h1
        · exact (ihM (c :: rest) [] fs r h).trans (h1 ▸ skipWs_sl cs)
    · intro cs acc fs r h
      rw [parseMembers] at h
      split at h
      · exact absurd h (by simp)
      next c rest h1 =>
        have hrest : List.Sublist rest cs := skipWs_cons_sl h1
        split_ifs at h with hc
        split at h
        next kcs klen h2 =>
          split at h
          next h3 => exact absurd h (by simp)
          next c2 r2 h3 =>
            have hr2 : List.Sublist r2 rest :=
              (skipWs_cons_sl h3).trans (List.drop_sublist klen rest)
            split_ifs at h with hc2
            split at h
            next v r3 h4 =>
              have hr3 : List.Sublist r3 r2 := ihV r2 v r3 h4
              split at h
              next h5 => exact absurd h (by simp)
              next c3 r4 h5 =>
                have hr4 : List.Sublist r4 r3 := skipWs_cons_sl h5
                split_ifs at h with hc3 hc4
                · exact (((ihM r4 _ fs r h).trans hr4).trans hr3).trans
                    (hr2.trans hrest)
                · cases h
                  exact ((hr4.trans hr3).trans hr2).trans hrest
            next h4 => exact absurd h (by simp)
        next h2 => exact absurd h (by simp)
    · intro cs xs r h
      rw [parseArrBody] at h
      split at h
      · exact absurd h (by simp)
      next c rest h1 =>
        split_ifs at h with hc
        · cases h; exact skipWs_cons_sl h1
        · exact (ihE (c :: rest) [] xs r h).trans (h1 ▸ skipWs_sl cs)
    · intro cs acc xs r h
      rw [parseElems] at h
      split at h
      next v r1 h2 =>
        have hr1 : List.Sublist r1 cs := ihV cs v r1 h2
        split at h
        next h3 => exact absurd h (by simp)
        next c r2 h3 =>
          have hr2 : List.Sublist r2 r1 := skipWs_cons_sl h3
          split_ifs at h with hc1 hc2
          · exact ((ihE r2 _ xs r h).trans hr2).trans hr1
          · cases h; exact hr2.trans hr1
      next h2 => exact absurd h (by simp)

theorem members_needs_close : ∀ f cs acc fs r,
    parseMembers f cs acc = some (fs, r) → '\x7d' ∈ cs := by
  intro f
  induction f with
  | zero => intro cs acc fs r h; simp [parseMembers] at h
  | succ f ih =>
    intro cs acc fs r h
    rw [parseMembers] at h
    split at h
    · exact absurd h (by simp)
    next c rest h1 =>
      have hrest : List.Sublist rest cs := skipWs_cons_sl h1
      split_ifs at h with hc
      split at h
      next kcs klen h2 =>
        split at h
        next h3 => exact absurd h (by simp)
        next c2 r2 h3 =>
          have hr2 : List.Sublist r2 rest :=
            (skipWs_cons_sl h3).trans (List.drop_sublist klen rest)
          split_ifs at h with hc2
          split at h
          next v r3 h4 =>
            have hr3 : List.Sublist r3 r2 := ((parse_rest_sl f).1) r2 v r3 h4
            split at h
            next h5 => exact absurd h (by simp)
            next c3 r4 h5 =>
              have hr4 : List.Sublist r4 r3 := skipWs_cons_sl h5
              split_ifs at h with hc3 hc4
              · have hmem : '\x7d' ∈ r4 := ih r4 _ fs r h
                exact hrest.subset (hr2.subset (hr3.subset (hr4.subset hmem)))
              · have hmem : c3 ∈ skipWs r3 := h5 ▸ List.mem_cons_self c3 r4
                have : '\x7d' ∈ r3 := (skipWs_sl r3).subset (hc4 ▸ hmem)
                exact hrest.subset (hr2.subset (hr3.subset this))
          next h4 => exact absurd h (by simp)
      next h2 => exact absurd h (by simp)

theorem elems_needs_close : ∀ f cs acc xs r,
    parseElems f cs acc = some (xs, r) → ']' ∈ cs := by
  intro f
  induction f with
  | zero => intro cs acc xs r h; simp [parseElems] at h
  | succ f ih =>
    intro cs acc xs r h
    rw [parseElems] at h
    split at h
    next v r1 h2 =>
      have hr1 : List.Sublist r1 cs := ((parse_rest_sl f).1) cs v r1 h2
      split at h
      next h3 => exact absurd h (by simp)
      next c r2 h3 =>
        have hr2 : List.Sublist r2 r1 := skipWs_cons_sl h3
        split_ifs at h with hc1 hc2
        · exact hr1.subset (hr2.subset (ih r2 _ xs r h))
        · have hmem : c ∈ skipWs r1 := h3 ▸ List.mem_cons_self c r2
          exact hr1.subset ((skipWs_sl r1).subset (hc2 ▸ hmem))
    next h2 => exact absurd h (by simp)

theorem parseObjBody_none_of_noClose : ∀ f cs, '\x7d' ∉ cs → parseObjBody f cs = none := by
  intro f cs h
  cases f with
  | zero => rfl
  | succ f =>
    rw [parseObjBody]
    split
    · rfl
    next c rest h1 =>
      have hcmem : c ∈ cs := (h1 ▸ skipWs_sl cs).subset (List.mem_cons_self c rest)
      have hc : ¬ (c = '\x7d') := fun he => h (he ▸ hcmem)
      rw [if_neg hc]
      cases h4 : parseMembers f (c :: rest) [] with
      | none => rfl
      | some p =>
        have : '\x7d' ∈ c :: rest := members_needs_close f _ _ p.1 p.2 (by rw [h4])
        exact absurd ((h1 ▸ skipWs_sl cs).subset this) h

theorem parseArrBody_none_of_noClose : ∀ f cs, ']' ∉ cs → parseArrBody f cs = none := by
  intro f cs h
  cases f with
  | zero => rfl
  | succ f =>
    rw [parseArrBody]
    split
    · rfl
    next c rest h1 =>
      have hcmem : c ∈ cs := (h1 ▸ skipWs_sl cs).subset (List.mem_cons_self c rest)
      have hc : ¬ (c = ']') := fun he => h (he ▸ hcmem)
      rw [if_neg hc]
      cases h4 : parseElems f (c :: rest) [] with
      | none => rfl
      | some p =>
        have : ']' ∈ c :: rest := elems_needs_close f _ _ p.1 p.2 (by rw [h4])
        exact absurd ((h1 ▸ skipWs_sl cs).subset this) h

theorem parseJson_none_of_noClose (cs : List Char)
    (hhead : ∃ c rest, skipWs cs = c :: rest ∧ (c = '\x7b' ∨ c = '['))
    (hbr : '\x7d' ∉ cs) (hbk : ']' ∉ cs) : parseJson cs = none := by
  obtain ⟨c, rest, h1, hor⟩ := hhead
  have hrest : '\x7d' ∉ rest := fun hm => hbr ((skipWs_cons_sl h1).subset hm)
  have hrest2 : ']' ∉ rest := fun hm => hbk ((skipWs_cons_sl h1).subset hm)
  rw [parseJson]
  cases hf : jsonFuel cs with
  | zero => simp [jsonFuel] at hf
  | succ f =>
    rw [parseV, h1]
    rcases hor with hc | hc
    · subst hc
      dsimp only
      rw [if_pos rfl, parseObjBody_none_of_noClose f rest hrest]
      rfl
    · subst hc
      dsimp only
      rw [if_neg (by decide : ¬ (('[' : Char) = '\x7b')), if_pos rfl,
        parseArrBody_none_of_noClose f rest hrest2]
      rfl

theorem lastIdxAux_cases : ∀ (cs : List Char) (c : Char) (i cur : Int),
    lastIdxAux cs c i cur = cur ∨ lastIdxAux cs c i cur ≥ i := by
  intro cs
  induction cs with
  | nil => intro c i cur; left; rfl
  | cons x rest ih =>
    intro c i cur
    rw [lastIdxAux]
    rcases ih c (i + 1) (if x = c then i else cur) with h | h
    · rw [h]
      split_ifs with hx
      · right; exact le_refl i
      · left; rfl
    · right; omega

theorem lastIdxAux_ge_of_mem : ∀ (cs : List Char) (c : Char) (i cur : Int),
    c ∈ cs → lastIdxAux cs c i cur ≥ i := by
  intro cs
  induction cs with
  | nil => intro c i cur h; exact absurd h (List.not_mem_nil c)
  | cons x rest ih =>
    intro c i cur h
    rw [lastIdxAux]
    rcases List.mem_cons.mp h with hx | hmem
    · rw [if_pos hx.symm]
      rcases lastIdxAux_cases rest c (i + 1) i with h2 | h2
      · omega
      · omega
    · have := ih c (i + 1) (if x = c then i else cur) hmem
      omega

theorem not_mem_of_lastIdx_le_zero {x : Char} {rest : List Char} {c : Char}
    (h : lastIdxC (x :: rest) c ≤ 0) (hx : x ≠ c) : c ∉ x :: rest := by
  intro hmem
  rcases List.mem_cons.mp hmem with he | hmem2
  · exact hx he.symm
  · have : lastIdxAux (x :: rest) c 0 (-1) ≥ 1 := by
      rw [lastIdxAux, if_neg (fun he => hx he)]
      exact lastIdxAux_ge_of_mem rest c 1 (-1) hmem2
    rw [lastIdxC] at h
    omega

theorem bestScan_ge : ∀ (cs : List Char) (i br bk lastC best : Int),
    lastC ≤ best → lastC ≤ bestScan cs i br bk lastC best := by
  intro cs
  induction cs with
  | nil => intro i br bk lastC best h; rw [bestScan]; exact h
  | cons c rest ih =>
    intro i br bk lastC best h
    rw [bestScan]
    apply ih
    split_ifs with h1 h2 h3 h4 h5 h6 h7 h8 h9 h10 h11 h12 <;>
      simp_all only [Bool.and_eq_true, decide_eq_true_eq] <;> try omega

theorem bestPosition_ge (cs : List Char) :
    max (lastIdxC cs '\x7d') (lastIdxC cs ']') ≤ bestPosition cs := by
  rw [bestPosition]
  exact bestScan_ge cs 0 0 0 _ _ (le_refl _)

theorem takeWhile_ws (cs : List Char) : ∀ c ∈ cs.takeWhile jsonWs, jsonWs c := by
  intro c h
  exact List.mem_takeWhile_imp h

theorem skipWs_decomp (cs : List Char) :
    cs = cs.takeWhile jsonWs ++ skipWs cs :=
  (List.takeWhile_append_dropWhile jsonWs cs).symm

theorem trimEnd_decomp (l : List Char) :
    l = trimEnd l ++ (l.reverse.takeWhile jsonWs).reverse ∧
    ∀ c ∈ (l.reverse.takeWhile jsonWs).reverse, jsonWs c := by
  constructor
  · have h1 : l.reverse.takeWhile jsonWs ++ l.reverse.dropWhile jsonWs = l.reverse :=
      List.takeWhile_append_dropWhile jsonWs l.reverse
    have h2 : l = (l.reverse.takeWhile jsonWs ++ l.reverse.dropWhile jsonWs).reverse := by
      rw [h1, List.reverse_reverse]
    rw [List.reverse_append] at h2
    exact h2
  · intro c h
    exact List.mem_takeWhile_imp (List.mem_reverse.mp h)

theorem jtrim_decomp (cs : List Char) :
    ∃ a b, cs = a ++ jtrim cs ++ b ∧ (∀ c ∈ a, jsonWs c) ∧ (∀ c ∈ b, jsonWs c) ∧
      skipWs cs = jtrim cs ++ b := by
  obtain ⟨h1, h2⟩ := trimEnd_decomp (skipWs cs)
  refine ⟨cs.takeWhile jsonWs, ((skipWs cs).reverse.takeWhile jsonWs).reverse,
    ?_, takeWhile_ws cs, h2, h1⟩
  calc cs = cs.takeWhile jsonWs ++ skipWs cs := skipWs_decomp cs
    _ = cs.takeWhile jsonWs ++ (jtrim cs ++ ((skipWs cs).reverse.takeWhile jsonWs).reverse) := by
        rw [jtrim, ← h1]
    _ = cs.takeWhile jsonWs ++ jtrim cs ++ ((skipWs cs).reverse.takeWhile jsonWs).reverse := by
        rw [List.append_assoc]

theorem mem_of_mem_jtrim_parts {cs : List Char} {x : Char} (hx : ¬ jsonWs x)
    (hmem : x ∈ cs) : x ∈ jtrim cs := by
  obtain ⟨a, b, hdec, ha, hb, _⟩ := jtrim_decomp cs
  rw [hdec] at hmem
  rcases List.mem_append.mp hmem with h | h
  · rcases List.mem_append.mp h with h | h
    · exact absurd (ha x h) hx
    · exact h
  · exact absurd (hb x h) hx

theorem endsWithDots_decomp {t : List Char} (h : endsWithDots t = true) :
    t = dropR3 t ++ ['.', '.', '.'] := by
  rw [endsWithDots] at h
  rcases h2 : t.reverse with _ | ⟨c1, u1⟩
  · rw [h2] at h; simp at h
  · rcases u1 with _ | ⟨c2, u2⟩
    · rw [h2] at h; simp at h
    · rcases u2 with _ | ⟨c3, u3⟩
      · rw [h2] at h; simp at h
      · rw [h2] at h
        by_cases e1 : c1 = '.'
        · by_cases e2 : c2 = '.'
          · by_cases e3 : c3 = '.'
            · subst e1; subst e2; subst e3
              have ht : t = (('.' : Char) :: '.' :: '.' :: u3).reverse := by
                rw [← h2, List.reverse_reverse]
              rw [dropR3, h2]
              rw [ht]
              simp
            · exact absurd h (by simp [e1, e2, e3])
          · exact absurd h (by simp [e1, e2])
        · exact absurd h (by simp [e1])

theorem parseToolContent_no_cut (s : String)
    (hhead : headIsBrace (jtrim (rewriteQuotes s.toList)) = true)
    (hdots : endsWithDots (jtrim (rewriteQuotes s.toList)) = true)
    (hbest : bestPosition (dropR3 (jtrim (rewriteQuotes s.toList))) ≤ 0) :
    parseToolContent (Content.text s) = (some (JVal.str s), false) := by
  set j := rewriteQuotes s.toList with hj
  set t := jtrim j with ht
  set w := dropR3 t with hw
  have hdec : t = w ++ ['.', '.', '.'] := endsWithDots_decomp hdots
  obtain ⟨c, t', ht'⟩ : ∃ c t', t = c :: t' := by
    cases h : t with
    | nil => rw [h] at hhead; simp [headIsBrace] at hhead
    | cons c t' => exact ⟨c, t', rfl⟩
  have hc : c = '\x7b' ∨ c = '[' := by
    rw [ht'] at hhead
    simp only [headIsBrace, Bool.or_eq_true, decide_eq_true_eq] at hhead
    exact hhead
  obtain ⟨w', hw'⟩ : ∃ w', w = c :: w' := by
    cases h : w with
    | nil =>
      rw [h] at hdec
      rw [hdec] at ht'
      simp at ht'
      rcases hc with hc | hc <;> rw [hc] at ht' <;> exact absurd ht'.1 (by decide)
    | cons d w' =>
      rw [h] at hdec
      rw [hdec] at ht'
      simp at ht'
      exact ⟨w', by rw [← ht'.1]⟩
  have hmax : max (lastIdxC w '\x7d') (lastIdxC w ']') ≤ 0 :=
    le_trans (bestPosition_ge w) hbest
  have hcne1 : c ≠ '\x7d' := by rcases hc with hc | hc <;> rw [hc] <;> decide
  have hcne2 : c ≠ ']' := by rcases hc with hc | hc <;> rw [hc] <;> decide
  have hnw1 : '\x7d' ∉ w := by
    rw [hw']
    exact not_mem_of_lastIdx_le_zero (by rw [← hw']; omega) hcne1
  have hnw2 : ']' ∉ w := by
    rw [hw']
    exact not_mem_of_lastIdx_le_zero (by rw [← hw']; omega) hcne2
  have hnt1 : '\x7d' ∉ t := by
    rw [hdec]
    intro hmem
    rcases List.mem_append.mp hmem with h | h
    · exact hnw1 h
    · simp at h
  have hnt2 : ']' ∉ t := by
    rw [hdec]
    intro hmem
    rcases List.mem_append.mp hmem with h | h
    · exact hnw2 h
    · simp at h
  have hnj1 : '\x7d' ∉ j := fun hmem =>
    hnt1 (mem_of_mem_jtrim_parts (by decide) hmem)
  have hnj2 : ']' ∉ j := fun hmem =>
    hnt2 (mem_of_mem_jtrim_parts (by decide) hmem)
  obtain ⟨a, b, _, _, _, hskip⟩ := jtrim_decomp j
  have hskip2 : skipWs j = c :: (t' ++ b) := by
    rw [hskip, ← ht, ht']
    rfl
  have hparse : parseJson j = none :=
    parseJson_none_of_noClose j ⟨c, t' ++ b, hskip2, hc⟩ hnj1 hnj2
  rw [parseToolContent]
  rw [← hj, ← ht, ← hw]
  rw [if_pos hhead, if_pos hdots]
  have hngt : ¬ (bestPosition w > 0) := by omega
  rw [if_neg hngt, hparse]

theorem parseToolContent_isJson (c : Content) :
    (parseToolContent c).2 = optComplex (parseToolContent c).1 := by
  cases c with
  | structured v => rfl
  | text s =>
    simp only [parseToolContent]
    repeat' first
      | rfl
      | split_ifs
      | split

theorem toolOutcomeSteps_syn_irrel (v : Option JVal) (j : Bool) (syn1 syn2 : JVal) :
    toolOutcomeSteps v j none false syn1 = toolOutcomeSteps v j none false syn2 := rfl

/-! ## Shared render-path helpers -/

theorem jsOrV_isSome (a b : Option JVal) (hb : b.isSome = true) :
    (jsOrV a b).isSome = true := by
  rw [jsOrV]
  split_ifs with h
  · cases a with
    | none => simp [truthy] at h
    | some v => rfl
  · exact hb

theorem outcome_parse_failed_marker (s : String)
    (hp : parseToolContent (Content.text s) = (some (JVal.str s), false))
    (hti : tryInterrupt s.toList = none)
    (hmk : hasApprovalMarker s.toList = true) :
    toolResultOutcome (Content.text s) =
      Except.ok (Category.approval, some (syntheticApproval s.toList)) := by
  show toolOutcomeSteps (parseToolContent (Content.text s)).1
    (parseToolContent (Content.text s)).2 (tryInterrupt s.toList)
    (hasApprovalMarker s.toList) (syntheticApproval s.toList) = _
  rw [hp, hti, hmk]
  simp [toolOutcomeSteps]
  rfl

theorem steps_details_interrupt (v0 : Option JVal) (rawTI : Option JVal)
    (mk : Bool) (syn : JVal) (ds : String) (v : JVal)
    (hfound : isFoundationApprovalRequired v0 = false)
    (hsearch : isExchangeSearchResults v0 = false)
    (haddn : isExchangeAdditionResults v0 = false)
    (happ : isApprovalRequired v0 = false)
    (herr : isErrorContent v0 = Except.ok false)
    (hdet : jget v0 "details" = some (JVal.str ds))
    (hne : ds ≠ "")
    (hti : tryInterrupt ds.toList = some v) :
    toolOutcomeSteps v0 true rawTI mk syn = Except.ok (Category.approval, some v) := by
  have herr2 : isErrorContent v0 = (pure false : Except Unit Bool) := herr
  have hti2 : tryInterrupt ds.data = some v := hti
  simp [toolOutcomeSteps, hfound, hsearch, haddn, happ, herr2, hdet, hti2, truthy, hne]
  rfl

theorem steps_raw_interrupt (v0 : Option JVal) (isJson0 : Bool)
    (mk : Bool) (syn : JVal) (v : JVal)
    (hfound : (if isJson0 then isFoundationApprovalRequired v0 else false) = false)
    (hsearch : (if isJson0 then isExchangeSearchResults v0 else false) = false)
    (haddn : (if isJson0 then isExchangeAdditionResults v0 else false) = false)
    (happ : (if isJson0 then isApprovalRequired v0 else false) = false)
    (herr : (if isJson0 then isErrorContent v0 else pure false) = Except.ok false)
    (hdetails : truthy (jget v0 "details") = false) :
    toolOutcomeSteps v0 isJson0 (some v) mk syn =
      Except.ok (Category.approval, some v) := by
  revert hfound hsearch haddn happ herr
  cases isJson0 with
  | false =>
    intro hfound hsearch haddn happ herr
    simp only [toolOutcomeSteps]
    simp only [Bool.false_eq_true, if_false, pure_bind, Bool.and_false,
      Bool.false_and, Bool.not_false]
    by_cases hmk : mk = true
    · simp only [hmk, if_true]
      rfl
    · simp only [hmk]
      rfl
  | true =>
    intro hfound hsearch haddn happ herr
    simp only [if_true] at hfound hsearch haddn happ herr
    have herr2 : isErrorContent v0 = (pure false : Except Unit Bool) := herr
    simp [toolOutcomeSteps, hfound, hsearch, haddn, happ, herr2, hdetails]
    rfl

/-! ## Claim theorems -/

/-- C1: the spec's decision order says a payload satisfying both the Approval
and the ExchangeSearch predicates is classified Approval, never
ExchangeSearch; the code's render order checks the exchange-search branch
first, so this payload, which satisfies both predicates, renders as
ExchangeSearch. -/
theorem c1_search_precedes_approval :
    isApprovalRequired (some c1Val) = true ∧
    isExchangeSearchResults (some c1Val) = true ∧
    parseToolContent (Content.text c1TextInput) = (some c1Val, true) ∧
    toolResultOutcome (Content.text c1TextInput) =
      Except.ok (Category.exchangeSearch, some c1Val) ∧
    Category.exchangeSearch ≠ Category.approval :=
  ⟨rfl, rfl, rfl, rfl, by decide⟩

/-- C2 counterexample: for structured (non-string) content the parser does
not short-circuit with the structured value and a success flag; it leaves the
value undefined with `succeeded = false`. -/
theorem c2_structured_counterexample :
    parseToolContent (Content.structured c2Struct) = (none, false) ∧
    parseToolContent (Content.structured c2Struct) ≠ (some c2Struct, true) := by
  refine ⟨rfl, ?_⟩
  intro h
  rw [show parseToolContent (Content.structured c2Struct) = (none, false) from rfl] at h
  simp at h

/-- C2 amended: for every structured (non-string) content the parse pass
leaves the value undefined with `succeeded = false`, and the classifier
assigns the plain-result category. -/
theorem c2_structured_plain_result (v : JVal) :
    parseToolContent (Content.structured v) = (none, false) ∧
    toolResultOutcome (Content.structured v) =
      Except.ok (Category.plainResult, none) :=
  ⟨rfl, rfl⟩

/-- C3: the claim says no formatting step throws; but an exchange-addition
success payload whose `search_metadata` lacks `materials_added` makes
`formatExchangeAdditionSuccess` read `.length` of `undefined`, an uncaught
TypeError, so the render pass throws at this input. -/
theorem c3_exchange_addition_format_throws :
    parseToolContent (Content.text c3TextInput) = (some c3Val, true) ∧
    isExchangeAdditionResults (some c3Val) = true ∧
    formatExchangeAdditionSuccess (some c3Val) = Except.error () ∧
    toolResultOutcome (Content.text c3TextInput) = Except.error () :=
  ⟨rfl, rfl, rfl, rfl⟩

/-- C4: the documented truncation input recovers a structured value with keys
`a` and `c`; and whenever the balanced-bracket scan finds no valid cut point
(best position not past zero) on brace-or-bracket-headed text ending in the
ellipsis marker, the parser returns the original text verbatim with
`succeeded = false`. -/
theorem c4_truncation_recovery :
    (parseToolContent (Content.text c4TextInput) = (some c4Val, true) ∧
      jget (some c4Val) "a" = some (JVal.obj [("b", JVal.num "1")]) ∧
      jget (some c4Val) "c" = some (JVal.num "2")) ∧
    (∀ s : String,
      headIsBrace (jtrim (rewriteQuotes s.toList)) = true →
      endsWithDots (jtrim (rewriteQuotes s.toList)) = true →
      bestPosition (dropR3 (jtrim (rewriteQuotes s.toList))) ≤ 0 →
      parseToolContent (Content.text s) = (some (JVal.str s), false)) :=
  ⟨⟨rfl, rfl, rfl⟩, fun s h1 h2 h3 => parseToolContent_no_cut s h1 h2 h3⟩

theorem c4_truncation_recovery_witness :
    headIsBrace (jtrim (rewriteQuotes "\x7b...".toList)) = true ∧
    endsWithDots (jtrim (rewriteQuotes "\x7b...".toList)) = true ∧
    bestPosition (dropR3 (jtrim (rewriteQuotes "\x7b...".toList))) ≤ 0 ∧
    parseToolContent (Content.text "\x7b...") =
      (some (JVal.str "\x7b..."), false) :=
  ⟨rfl, rfl, by decide, c4_truncation_recovery.2 "\x7b..." rfl rfl (by decide)⟩

/-- C5 counterexample: a message whose interrupt sub-expression parses with
`entity_type`, `entity_summary` and `action` is still rendered through the
error branch (computed from the steps-1-5 parse) rather than as an approval
request: the error category keeps render precedence. -/
theorem c5_interrupt_error_precedence :
    tryInterrupt c5DetailsStr.toList = some c5Interrupt ∧
    truthy (jget (some c5Interrupt) "entity_type") = true ∧
    truthy (jget (some c5Interrupt) "entity_summary") = true ∧
    truthy (jget (some c5Interrupt) "action") = true ∧
    toolResultOutcome (Content.text c5TextInput) =
      Except.ok (Category.genericError, some c5Interrupt) ∧
    Category.genericError ≠ Category.approval :=
  ⟨rfl, rfl, rfl, rfl, rfl, by decide⟩

/-- C5 amended: when no earlier-ranked category (foundation approval,
exchange search, exchange addition, error) matched the steps-1-5 parse and
the interrupt extraction succeeds - from the parsed `details` field (first
conjunct) or from the raw text (second conjunct) - the message is classified
as an approval request with the extracted value as its record; and when the
extraction's strict parse fails, the field-by-field scrape assembles a
partial approval record from `entity_type`, `entity_summary` and `action`
(with `impact` and `entity_details` best-effort, third conjunct). -/
theorem c5_interrupt_amended :
    (∀ (s ds : String) (v : JVal),
      (parseToolContent (Content.text s)).2 = true →
      isFoundationApprovalRequired (parseToolContent (Content.text s)).1 = false →
      isExchangeSearchResults (parseToolContent (Content.text s)).1 = false →
      isExchangeAdditionResults (parseToolContent (Content.text s)).1 = false →
      isApprovalRequired (parseToolContent (Content.text s)).1 = false →
      isErrorContent (parseToolContent (Content.text s)).1 = Except.ok false →
      jget (parseToolContent (Content.text s)).1 "details" = some (JVal.str ds) →
      ds ≠ "" →
      tryInterrupt ds.toList = some v →
      toolResultOutcome (Content.text s) = Except.ok (Category.approval, some v)) ∧
    (∀ (s : String) (v : JVal),
      (if (parseToolContent (Content.text s)).2 then
        isFoundationApprovalRequired (parseToolContent (Content.text s)).1 else false) = false →
      (if (parseToolContent (Content.text s)).2 then
        isExchangeSearchResults (parseToolContent (Content.text s)).1 else false) = false →
      (if (parseToolContent (Content.text s)).2 then
        isExchangeAdditionResults (parseToolContent (Content.text s)).1 else false) = false →
      (if (parseToolContent (Content.text s)).2 then
        isApprovalRequired (parseToolContent (Content.text s)).1 else false) = false →
      (if (parseToolContent (Content.text s)).2 then
        isErrorContent (parseToolContent (Content.text s)).1 else pure false) = Except.ok false →
      truthy (jget (parseToolContent (Content.text s)).1 "details") = false →
      tryInterrupt s.toList = some v →
      toolResultOutcome (Content.text s) = Except.ok (Category.approval, some v)) ∧
    (∀ (t cap : List Char) (et es ac : String),
      interruptFind t = some cap →
      parseJson (interruptCleanup cap) = none →
      scrapeF "entity_type" t = some et →
      scrapeF "entity_summary" t = some es →
      scrapeF "action" t = some ac →
      tryInterrupt t = some (interruptScrapeRecord t et es ac)) := by
  refine ⟨?_, ?_, ?_⟩
  · intro s ds v hjson h1 h2 h3 h4 h5 hdet hne hti
    show toolOutcomeSteps (parseToolContent (Content.text s)).1
      (parseToolContent (Content.text s)).2 (tryInterrupt s.toList)
      (hasApprovalMarker s.toList) (syntheticApproval s.toList) = _
    rw [hjson]
    exact steps_details_interrupt _ _ _ _ ds v h1 h2 h3 h4 h5 hdet hne hti
  · intro s v h1 h2 h3 h4 h5 hdetails hti
    show toolOutcomeSteps (parseToolContent (Content.text s)).1
      (parseToolContent (Content.text s)).2 (tryInterrupt s.toList)
      (hasApprovalMarker s.toList) (syntheticApproval s.toList) = _
    rw [hti]
    exact steps_raw_interrupt _ _ _ _ v h1 h2 h3 h4 h5 hdetails
  · intro t cap et es ac hfind hparse h1 h2 h3
    rw [tryInterrupt, hfind]
    dsimp only
    rw [hparse, interruptScrape, h1, h2, h3]

theorem c5_interrupt_amended_witness :
    parseToolContent (Content.text c5RawInput) =
      (some (JVal.str c5RawInput), false) ∧
    tryInterrupt c5RawInput.toList = some c5RawVal ∧
    toolResultOutcome (Content.text c5RawInput) =
      Except.ok (Category.approval, some c5RawVal) :=
  ⟨rfl, rfl, c5_interrupt_amended.2.1 c5RawInput c5RawVal rfl rfl rfl rfl rfl rfl rfl⟩

/-- C6: when the text has single quotes and no double quotes, all single
quotes are rewritten to double quotes before the strict parse, and the parsed
value is exactly the strict parse of the rewritten text; in particular the
single-quoted object parses to the strict parse of its double-quoted form. -/
theorem c6_single_quote_rewrite :
    (∀ s : String, s.toList.contains squote = true →
      s.toList.contains dquote = false →
      rewriteQuotes s.toList = s.toList.map (fun c => if c = squote then dquote else c)) ∧
    (∀ (s : String) (v : JVal),
      headIsBrace (jtrim (rewriteQuotes s.toList)) = true →
      endsWithDots (jtrim (rewriteQuotes s.toList)) = false →
      parseJson (rewriteQuotes s.toList) = some v →
      parseToolContent (Content.text s) = (some v, isComplexValue v)) := by
  constructor
  · intro s h1 h2
    rw [rewriteQuotes, if_pos]
    rw [h1, h2]
    trivial
  · intro s v h1 h2 h3
    rw [parseToolContent]
    rw [if_pos h1, if_neg (by rw [h2]; exact Bool.false_ne_true), h3]

theorem c6_single_quote_rewrite_witness :
    "\x7b'a': 'b'\x7d".toList.contains squote = true ∧
    "\x7b'a': 'b'\x7d".toList.contains dquote = false ∧
    rewriteQuotes "\x7b'a': 'b'\x7d".toList = "\x7b\"a\": \"b\"\x7d".toList ∧
    parseJson "\x7b\"a\": \"b\"\x7d".toList = some (JVal.obj [("a", JVal.str "b")]) ∧
    parseToolContent (Content.text "\x7b'a': 'b'\x7d") =
      (some (JVal.obj [("a", JVal.str "b")]), true) := by
  refine ⟨by decide, by decide, by decide, rfl, ?_⟩
  have h := c6_single_quote_rewrite.2 "\x7b'a': 'b'\x7d" (JVal.obj [("a", JVal.str "b")])
    rfl rfl rfl
  exact h

/-- C7: the `EntityApproval` extraction always yields defined `entityType`
and `entitySummary` values (placeholders when missing); in particular the
documented input lacking `entity_summary` yields the placeholder summary. -/
theorem c7_approval_defaults :
    (∀ c : Option JVal, (entityTypeOf c).isSome ∧ (entitySummaryOf c).isSome) ∧
    entitySummaryOf c7Input = some (JVal.str "Entity requires approval") ∧
    entityTypeOf c7Input = some (JVal.str "process") := by
  refine ⟨?_, rfl, rfl⟩
  intro c
  constructor
  · apply jsOrV_isSome
    apply jsOrV_isSome
    rfl
  · apply jsOrV_isSome
    apply jsOrV_isSome
    rfl

/-- C8: a rejection with an empty or whitespace-only reason is blocked by the
pre-submission guard (the transport call is never reached, and the submit
button is disabled); a rejection reaches the transport only with a non-empty
trimmed reason. -/
theorem c8_reject_requires_reason :
    (∀ (reason : String) (sugg : List String) (tn tid : Option String),
      jsTrim reason = "" →
      handleSubmitModel ⟨some Decision.reject, reason, sugg⟩ tn tid =
        SubmitOutcome.blockedNoReason ∧
      submitDisabled ⟨some Decision.reject, reason, sugg⟩ = true) ∧
    (∀ (reason : String) (sugg : List String) (tn tid : Option String) (p : JVal),
      handleSubmitModel ⟨some Decision.reject, reason, sugg⟩ tn tid =
        SubmitOutcome.submitted p →
      jsTrim reason ≠ "") := by
  constructor
  · intro reason sugg tn tid h
    constructor
    · rw [handleSubmitModel]
      simp [h]
    · rw [submitDisabled]
      simp [h]
  · intro reason sugg tn tid p h htrim
    rw [handleSubmitModel] at h
    simp [htrim] at h

theorem c8_reject_requires_reason_witness :
    jsTrim "   " = "" ∧
    handleSubmitModel ⟨some Decision.reject, "   ", []⟩ none none =
      SubmitOutcome.blockedNoReason ∧
    submitDisabled ⟨some Decision.reject, "   ", []⟩ = true := by
  refine ⟨rfl, ?_, ?_⟩
  · exact (c8_reject_requires_reason.1 "   " [] none none rfl).1
  · exact (c8_reject_requires_reason.1 "   " [] none none rfl).2

/-- C9 counterexample: two messages whose parsed values are equal receive
different categories, because the raw-text `approval_required` fallback reads
the original text: the category is not a pure function of
`ParsedPayload.value`. -/
theorem c9_raw_text_changes_category :
    (parseToolContent (Content.text c9Raw1)).1 = (parseToolContent (Content.text c9Raw2)).1 ∧
    toolResultOutcome (Content.text c9Raw1) =
      Except.ok (Category.plainResult, some c9Val) ∧
    toolResultOutcome (Content.text c9Raw2) =
      Except.ok (Category.approval, some c9Val) ∧
    Category.plainResult ≠ Category.approval :=
  ⟨rfl, rfl, rfl, by decide⟩

/-- C9 amended: exactly one category is assigned per message, and for
messages whose raw text triggers neither the interrupt extraction nor the
`approval_required` marker fallback, the whole outcome (category and record)
is a function of the parsed value: equal parsed values give equal
outcomes. -/
theorem c9_category_function_of_value (s1 s2 : String)
    (h1 : tryInterrupt s1.toList = none) (h2 : tryInterrupt s2.toList = none)
    (h3 : hasApprovalMarker s1.toList = false)
    (h4 : hasApprovalMarker s2.toList = false)
    (hv : (parseToolContent (Content.text s1)).1 = (parseToolContent (Content.text s2)).1) :
    toolResultOutcome (Content.text s1) = toolResultOutcome (Content.text s2) := by
  have hb : (parseToolContent (Content.text s1)).2 = (parseToolContent (Content.text s2)).2 := by
    rw [parseToolContent_isJson, parseToolContent_isJson, hv]
  show toolOutcomeSteps (parseToolContent (Content.text s1)).1
      (parseToolContent (Content.text s1)).2 (tryInterrupt s1.toList)
      (hasApprovalMarker s1.toList) (syntheticApproval s1.toList) =
    toolOutcomeSteps (parseToolContent (Content.text s2)).1
      (parseToolContent (Content.text s2)).2 (tryInterrupt s2.toList)
      (hasApprovalMarker s2.toList) (syntheticApproval s2.toList)
  rw [h1, h2, h3, h4, hv, hb]
  exact toolOutcomeSteps_syn_irrel _ _ _ _

theorem c9_category_function_of_value_witness :
    tryInterrupt "\x7b\"y\": 2\x7d".toList = none ∧
    tryInterrupt " \x7b\"y\": 2\x7d".toList = none ∧
    hasApprovalMarker "\x7b\"y\": 2\x7d".toList = false ∧
    hasApprovalMarker " \x7b\"y\": 2\x7d".toList = false ∧
    (parseToolContent (Content.text "\x7b\"y\": 2\x7d")).1 =
      (parseToolContent (Content.text " \x7b\"y\": 2\x7d")).1 ∧
    toolResultOutcome (Content.text "\x7b\"y\": 2\x7d") =
      toolResultOutcome (Content.text " \x7b\"y\": 2\x7d") :=
  ⟨rfl, rfl, rfl, rfl, rfl,
    c9_category_function_of_value "\x7b\"y\": 2\x7d" " \x7b\"y\": 2\x7d" rfl rfl rfl rfl rfl⟩

/-- C10: a string message containing `approval_required` (or `approval
required`, case-insensitively) whose parse failed and whose interrupt block
did not fire is classified as an approval request, with a synthetic record
whose fields default to `unknown`, `Entity requires approval`, `create` and
`Will create a new entity` when they cannot be scraped. -/
theorem c10_marker_fallback (s : String)
    (hp : parseToolContent (Content.text s) = (some (JVal.str s), false))
    (hti : tryInterrupt s.toList = none)
    (hmk : hasApprovalMarker s.toList = true) :
    toolResultOutcome (Content.text s) =
      Except.ok (Category.approval, some (syntheticApproval s.toList)) ∧
    (scrapeF "entity_type" s.toList = none →
      jget (jget (some (syntheticApproval s.toList)) "approval_request") "entity_type" =
        some (JVal.str "unknown")) ∧
    (scrapeF "entity_summary" s.toList = none →
      jget (jget (some (syntheticApproval s.toList)) "approval_request") "entity_summary" =
        some (JVal.str "Entity requires approval")) ∧
    (scrapeF "action" s.toList = none →
      jget (jget (some (syntheticApproval s.toList)) "approval_request") "action" =
        some (JVal.str "create")) ∧
    (scrapeF "impact" s.toList = none →
      jget (jget (some (syntheticApproval s.toList)) "approval_request") "impact" =
        some (JVal.str "Will create a new entity")) := by
  refine ⟨outcome_parse_failed_marker s hp hti hmk, ?_, ?_, ?_, ?_⟩ <;>
    intro h <;> rw [show s.toList = s.data from rfl] at h <;>
    simp [syntheticApproval, jget, h, List.find?]

theorem c10_marker_fallback_witness :
    parseToolContent (Content.text c10Witness) =
      (some (JVal.str c10Witness), false) ∧
    tryInterrupt c10Witness.toList = none ∧
    hasApprovalMarker c10Witness.toList = true ∧
    toolResultOutcome (Content.text c10Witness) =
      Except.ok (Category.approval, some (syntheticApproval c10Witness.toList)) :=
  ⟨rfl, rfl, rfl, (c10_marker_fallback c10Witness rfl rfl rfl).1⟩

